import Mathlib

/-!
# Verification of the pilot payload-execution core

Shallow embedding of the payload execution state machine of
`pilot/control/payloads/generic.py` and of the cancellation flag of
`pilot/workflow/generic.py`, together with proofs of the behavioural
properties stated in the specification.

Strings are modelled as `List Char`; the Python string primitives used by
the source (`strip`, `split(';')`, `replace`, `endswith`) are embedded
with their Python semantics.
-/

namespace Pilot

/-- Strings are modelled as lists of characters. -/
abbrev Str := List Char

/-- The characters removed by Python's `str.strip()` (whitespace). -/
def isPySpace (c : Char) : Bool :=
  c = ' ' || c = '\t' || c = '\n' || c = '\x0d' || c = '\x0b' || c = '\x0c'

/-- Python `s.strip()`: remove leading and trailing whitespace. -/
def pyStrip (s : Str) : Str :=
  ((s.dropWhile isPySpace).reverse.dropWhile isPySpace).reverse

/-- Python `s.split(';')`: split at every semicolon; the result is always
nonempty and keeps empty segments (`"".split(';') == ['']`). -/
def splitSemi : Str → List Str
  | [] => [[]]
  | c :: rest =>
    if c = ';' then [] :: splitSemi rest
    else
      match splitSemi rest with
      | [] => [[c]]
      | h :: t => (c :: h) :: t

/-- Scanning core of Python `s.replace(old, new)` for a nonempty `old`,
written with an explicit skip counter so the recursion is structural:
`skip > 0` means the scanner is still consuming a matched occurrence. -/
def pyReplaceAux (old new : Str) : Nat → Str → Str
  | _ + 1, [] => []
  | skip + 1, _ :: rest => pyReplaceAux old new skip rest
  | 0, [] => []
  | 0, c :: rest =>
    if old.isPrefixOf (c :: rest) && !old.isEmpty then
      new ++ pyReplaceAux old new (old.length - 1) rest
    else
      c :: pyReplaceAux old new 0 rest

/-- Scanning core of Python `s.replace(old, new)` for a nonempty `old`:
replace every leftmost non-overlapping occurrence, left to right. -/
def pyReplaceGo (old new : Str) (s : Str) : Str :=
  pyReplaceAux old new 0 s

theorem pyReplaceAux_skip (old new : Str) :
    ∀ (k : Nat) (s : Str), pyReplaceAux old new k s = pyReplaceGo old new (s.drop k)
  | 0, [] => rfl
  | 0, _ :: _ => by rw [List.drop_zero]; rfl
  | _ + 1, [] => by rw [List.drop_nil]; rfl
  | k + 1, c :: rest => by
    rw [show pyReplaceAux old new (k + 1) (c :: rest) = pyReplaceAux old new k rest from rfl,
        pyReplaceAux_skip old new k rest, List.drop_succ_cons]

/-- Unfolding rule of the scanner at a nonempty string. -/
theorem pyReplaceGo_cons (old new : Str) (c : Char) (rest : Str) :
    pyReplaceGo old new (c :: rest) =
      if old.isPrefixOf (c :: rest) && !old.isEmpty then
        new ++ pyReplaceGo old new (rest.drop (old.length - 1))
      else
        c :: pyReplaceGo old new rest := by
  by_cases hcond : (old.isPrefixOf (c :: rest) && !old.isEmpty) = true
  · rw [pyReplaceGo, pyReplaceAux, if_pos hcond, pyReplaceAux_skip, if_pos hcond]
  · rw [pyReplaceGo, pyReplaceAux, if_neg hcond, if_neg hcond]
    rfl

/-- Python `s.replace(old, new)`: for an empty `old`, Python inserts `new`
at every position (`"abc".replace("", "X") == "XaXbXcX"`); otherwise
replace every leftmost non-overlapping occurrence. -/
def pyReplace (s old new : Str) : Str :=
  if old.isEmpty then new ++ s.flatMap (fun c => c :: new)
  else pyReplaceGo old new s

/-- First two lines of `Executor.extract_setup`
(`pilot/control/payloads/generic.py` lines 302-303):

    cmd = cmd.strip()
    cmd = cmd[:-1] if cmd.endswith(';') else cmd
-/
def setupCore (cmd : Str) : Str :=
  if (pyStrip cmd).getLast? = some ';' then (pyStrip cmd).dropLast else pyStrip cmd

/-- Embedding of `Executor.extract_setup` (`pilot/control/payloads/generic.py`
lines 292-307):

    cmd = cmd.strip()
    cmd = cmd[:-1] if cmd.endswith(';') else cmd
    last_bit = cmd.split(';')[-1]
    setup = cmd.replace(last_bit.strip(), '')
    return setup
-/
def extract_setup (cmd : Str) : Str :=
  pyReplace (setupCore cmd) (pyStrip ((splitSemi (setupCore cmd)).getLastD [])) []

/-! ## Model of `Executor.wait_graceful` (generic.py lines 309-354)

Time is counted in tenths of a second: `time.sleep(0.1)` advances one
tick, `time.sleep(1)` ten ticks, `time.sleep(3)` thirty ticks. The
environment supplies the cancellation flag (`args.graceful_stop.is_set()`)
and the payload's poll status (`proc.poll()`) as functions of the tick. -/

structure WGEnv where
  flag : Nat → Bool
  pollAt : Nat → Option Int

/-- Signals sent by the supervisor: `termGroup` models
`os.killpg(os.getpgid(proc.pid), signal.SIGTERM)` — SIGTERM to the whole
process group — and `killPid` models `proc.kill()` — SIGKILL delivered to
the leader pid. -/
inductive WGSig
  | termGroup
  | killPid
deriving DecidableEq, Repr

/-- The inner `for i in range(60)` loop: at each step check the flag; if
set, send SIGTERM to the process group and break with `breaker = True`;
otherwise `time.sleep(1)`. Returns (breaker, tick after the loop, sent
signals with their tick). -/
def innerLoop (env : WGEnv) : Nat → Nat → Bool × Nat × List (Nat × WGSig)
  | t, 0 => (false, t, [])
  | t, n + 1 =>
    if env.flag t then (true, t, [(t, WGSig.termGroup)])
    else innerLoop env (t + 10) n

/-- The outer `while True` loop of `wait_graceful`: `time.sleep(0.1)`,
run the inner loop; if the breaker fired, `time.sleep(3)`, `proc.kill()`
and return the current (stale) `exit_code`; otherwise poll the process
and return its exit code when it has one. `fuel` bounds the number of
outer iterations; `none` means the bound was hit. -/
def waitLoop (env : WGEnv) : Nat → Option Int → Nat →
    Option (Option Int × Nat × List (Nat × WGSig))
  | _, _, 0 => none
  | t, ec, fuel + 1 =>
    match innerLoop env (t + 1) 60 with
    | (true, t2, sigs) => some (ec, t2 + 30, sigs ++ [(t2 + 30, WGSig.killPid)])
    | (false, t2, _) =>
      match env.pollAt t2 with
      | some c => some (some c, t2, [])
      | none => waitLoop env t2 none fuel

/-- `Executor.wait_graceful`: supervise the payload from tick 0 with
`exit_code = None`. -/
def wait_graceful (env : WGEnv) (fuel : Nat) :
    Option (Option Int × Nat × List (Nat × WGSig)) :=
  waitLoop env 0 none fuel

/-! ## Model of the cancellation flag (workflow/generic.py lines 27-29, 61-62)

The only operations the source performs on `args.graceful_stop` are
`set()` — inside the installed SIGINT handler `interrupt` — and
`is_set()` reads in the stage loops and `wait_graceful`. `clear()` is
never called anywhere in the source. -/

inductive FlagOp
  | sigint
  | observe
deriving DecidableEq, Repr

/-- Effect of one operation on the flag (`threading.Event` semantics:
`set()` makes it true, reads leave it unchanged). -/
def flagStep (b : Bool) : FlagOp → Bool
  | FlagOp.sigint => true
  | FlagOp.observe => b

/-- The flag after a sequence of operations starting from value `b`. -/
def flagRun (b : Bool) (ops : List FlagOp) : Bool := ops.foldl flagStep b

/-! ## Model of `Executor.run` and its helpers (generic.py lines 172-531) -/

/-- Error codes appended to the job's error list. The numeric values of
`ErrorCodes` live outside `src/`; only their distinctness matters here.
`builderError n` stands for the error code carried by a `PilotException`
raised by the command builder. -/
inductive ErrCode
  | preprocessFailure
  | postprocessFailure
  | unknownPayloadFailure
  | builderError (n : Nat)
deriving DecidableEq, Repr

/-- Modelled from the spec: `ErrorCodes.add_error_code` lives in
`pilot/common/errorcodes.py`, which is not under `src/`. The spec
describes the job's error accumulation as an "ordered list of
(error-code, diagnostic-string) pairs — append-only, never overwritten",
so the model appends the new code at the end of the list. -/
def add_error_code (e : ErrCode) (errs : List ErrCode) : List ErrCode := errs ++ [e]

/-- The fields of the job object that the modelled code reads or writes.
The `utilities` dictionary is modelled as an association list
(name ↦ optional process handle, identified by its pid). -/
structure Job where
  jobparams : Str
  setup : Str
  state : Str
  piloterrorcodes : List ErrCode
  utilities : List (Str × Option Nat)
  is_hpo : Bool
  pid : Option Nat
  pgrp : Option Nat
deriving DecidableEq, Repr

/-- Events recorded by `stop_utilities`: the `os.killpg` call (succeeding,
or raising — in which case the exception is caught and logged), and the
`user.post_utility_command_action` hook invocation. -/
inductive SEvent
  | killpgSent (pgid : Nat) (sig : Int)
  | killpgError (pid : Nat)
  | hookInvoked (name : Str)
deriving DecidableEq, Repr

/-- External collaborators of `stop_utilities`:
`user.get_utility_command_kill_signal`, `os.getpgid`, and whether
`os.killpg` raises for a given pid. -/
structure StopOracle where
  killSig : Str → Int
  pgidOf : Nat → Nat
  killFails : Nat → Bool

/-- Embedding of `Executor.stop_utilities` (generic.py lines 511-531):
for every utility entry with a live process handle, look up its kill
signal, try `os.killpg(os.getpgid(pid), sig)` — any exception is caught
and logged — then invoke the post-stop hook. The utilities table is
returned as the code leaves it: no entry is ever removed. -/
def stop_utilities (o : StopOracle) (utilities : List (Str × Option Nat)) :
    List (Str × Option Nat) × List SEvent :=
  (utilities,
   utilities.flatMap fun e =>
     match e.2 with
     | none => []
     | some pid =>
       (if o.killFails pid then SEvent.killpgError pid
        else SEvent.killpgSent (o.pgidOf pid) (o.killSig e.1)) :: [SEvent.hookInvoked e.1])

/-- Events recorded during `Executor.run`. -/
inductive REvent
  | execUtility (label : Str) (cmd : Str) (exitCode : Int)
  | launchAttempt (cmd : Str)
  | sendState (state : Str)
  | stopEvent (e : SEvent)
deriving DecidableEq, Repr

/-- External collaborators of `Executor.run`, indexed by the HPO
iteration number where relevant: the command builder
(`user.get_payload_command`, raising = `Except.error`), the
jobparams rewrite done by `utility_before_payload`, the preprocess
command and its exit code, payload launch success, the pid of the
launched payload, the utility entry registered by
`utility_after_payload_started`, the `wait_graceful` result, the
postprocess command and its exit code, and the stop collaborators. -/
structure RunOracle where
  payloadCommand : Except ErrCode Str
  newJobparams : Nat → Option Str
  preCmd : Nat → Option Str
  preExit : Nat → Int
  launchOk : Nat → Bool
  launchPid : Nat → Nat
  startedUtility : Nat → Option (Str × Option Nat)
  waitExit : Nat → Option Int
  postCmd : Nat → Option Str
  postExit : Nat → Int
  stop : StopOracle

/-- Embedding of `Executor.execute_utility_command` (generic.py lines
172-198): run the command (exit code supplied by the oracle), and for a
non-zero exit code classify the error by the label and append it to the
job's error list — except for exit code 160 ("no more data points"),
which is never recorded. -/
def execute_utility_command (cmd : Str) (label : Str) (exitCode : Int) (job : Job) :
    Int × Job × List REvent :=
  let err := if label = "preprocess".data then ErrCode.preprocessFailure
             else if label = "postprocess".data then ErrCode.postprocessFailure
             else ErrCode.unknownPayloadFailure
  let job' := if exitCode ≠ 0 ∧ exitCode ≠ 160 then
      {job with piloterrorcodes := add_error_code err job.piloterrorcodes}
    else job
  (exitCode, job', [REvent.execUtility label cmd exitCode])

/-- Embedding of `Executor.run_preprocess` (generic.py lines 384-419):
`utility_before_payload` may rewrite the jobparams; if it yields a
command, the command is prefixed with the job's setup and executed; exit
code 160 is only logged, any other non-zero exit code appends a second
`PREPROCESSFAILURE` to the error list (the first was appended inside
`execute_utility_command`). -/
def run_preprocess (o : RunOracle) (n : Nat) (job : Job) : Int × Job × List REvent :=
  let job0 := match o.newJobparams n with
    | some ps => {job with jobparams := ps}
    | none => job
  match o.preCmd n with
  | none => (0, job0, [])
  | some c =>
    let cmd := job0.setup ++ c
    let (ec, job1, ev) := execute_utility_command cmd "preprocess".data (o.preExit n) job0
    let job2 := if ec = 160 then job1
      else if ec ≠ 0 then
        {job1 with piloterrorcodes := add_error_code ErrCode.preprocessFailure job1.piloterrorcodes}
      else job1
    (ec, job2, ev)

/-- Embedding of `Executor.run_payload` (generic.py lines 251-290): try
to launch the payload command; on failure return `none`; on success
record pid and process-group id on the job, set its state to `running`,
and let `utility_after_payload_started` register its utility entry. -/
def run_payload (o : RunOracle) (n : Nat) (job : Job) (cmd : Str) :
    Option Job × List REvent :=
  if o.launchOk n then
    let pid := o.launchPid n
    let job1 := {job with pid := some pid, pgrp := some (o.stop.pgidOf pid),
                          state := "running".data}
    let job2 := match o.startedUtility n with
      | some entry => {job1 with utilities := job1.utilities ++ [entry]}
      | none => job1
    (some job2, [REvent.launchAttempt cmd])
  else (none, [REvent.launchAttempt cmd])

/-- Embedding of `Executor.get_payload_command` (generic.py lines
356-382): ask the command builder; if it raises a `PilotException`, the
exception's error code is appended to the job's error list and the
initial empty command string is returned. -/
def get_payload_command (o : RunOracle) (job : Job) : Str × Job :=
  match o.payloadCommand with
  | Except.ok c => (c, job)
  | Except.error e => ([], {job with piloterrorcodes := add_error_code e job.piloterrorcodes})

/-- The part of one `Executor.run` iteration that follows a successful
payload launch (generic.py lines 462-500): `send_state`, wait for the
payload (`wait_graceful` result supplied by the oracle), classify the
state `finished`/`failed` from the exit code, normalise a `None` exit
code to -1, run the postprocess command when the state is not `failed`
(its exit code overwriting the payload's), and stop the utilities when
the table is nonempty. -/
def afterWait (o : RunOracle) (n : Nat) (job2 : Job) : Int × Job × List REvent :=
  let wec := o.waitExit n
  let state := if wec = some 0 then "finished".data else "failed".data
  let job3 := {job2 with state := state}
  let ec2 : Int := match wec with
    | none => -1
    | some c => c
  let post :=
    if state ≠ "failed".data then
      match o.postCmd n with
      | some pc =>
        execute_utility_command (job3.setup ++ pc) "postprocess".data (o.postExit n) job3
      | none => (ec2, job3, ([] : List REvent))
    else (ec2, job3, ([] : List REvent))
  let ec3 := post.1
  let job4 := post.2.1
  let ev4 := post.2.2
  let fin :=
    if job4.utilities ≠ [] then
      let st := stop_utilities o.stop job4.utilities
      ({job4 with utilities := st.1}, st.2.map REvent.stopEvent)
    else (job4, [])
  (ec3, fin.1, [REvent.sendState job2.state] ++ ev4 ++ fin.2)

/-- Embedding of the `while True` HPO loop of `Executor.run` (generic.py
lines 440-507), one call per iteration `n`; `fuel` bounds the number of
iterations (the loop repeats only for HPO jobs). Mirrors the source:
preprocess (exit 160 → rewrite exit code to 0 and break; other non-zero
→ break); jobparams delta applied to the command by a global
`str.replace`; payload launch (failure → break with the preprocess exit
code); `send_state`; `wait_graceful`; state classified `finished` iff
exit code is 0; a `None` exit code normalised to -1; postprocess only
when the state is not `failed`, its exit code overwriting the payload's;
`stop_utilities` when the utility table is nonempty. -/
def runLoop (o : RunOracle) : Str → Job → Nat → Nat → Int × Job × List REvent
  | _, job, _, 0 => (0, job, [])
  | cmd, job, n, fuel + 1 =>
    let jobparams_pre := job.jobparams
    let pre := run_preprocess o n job
    let ec := pre.1
    let job1 := pre.2.1
    let ev1 := pre.2.2
    let jobparams_post := job1.jobparams
    if ec ≠ 0 then
      (if ec = 160 then 0 else ec, job1, ev1)
    else
      let cmd1 := if jobparams_pre ≠ jobparams_post then
          pyReplace cmd jobparams_pre jobparams_post
        else cmd
      match run_payload o n job1 cmd1 with
      | (none, ev2) => (ec, job1, ev1 ++ ev2)
      | (some job2, ev2) =>
        let aw := afterWait o n job2
        if aw.2.1.is_hpo then
          let r := runLoop o cmd1 aw.2.1 (n + 1) fuel
          (r.1, r.2.1, ev1 ++ ev2 ++ aw.2.2 ++ r.2.2)
        else
          (aw.1, aw.2.1, ev1 ++ ev2 ++ aw.2.2)

/-- Embedding of `Executor.run` (generic.py lines 421-509): resolve the
payload command once, derive the job's setup string from it with
`extract_setup`, then run the HPO iteration loop starting at
iteration 1. -/
def run (o : RunOracle) (job : Job) (fuel : Nat) : Int × Job × List REvent :=
  let gp := get_payload_command o job
  let job2 := {gp.2 with setup := extract_setup gp.1}
  runLoop o gp.1 job2 1 fuel

/-! ## Lemmas about the embedded Python string primitives -/

theorem pyReplaceGo_nil (old new : Str) : pyReplaceGo old new [] = [] := rfl

theorem pyReplaceGo_no_occ (old new : Str) (t : Str)
    (h : ∀ i, old.isPrefixOf (t.drop i) = false) :
    pyReplaceGo old new t = t := by
  induction t with
  | nil => exact pyReplaceGo_nil old new
  | cons c rest ih =>
    have h0 := h 0
    simp only [List.drop_zero] at h0
    rw [pyReplaceGo_cons, h0, if_neg (show ¬((false && !old.isEmpty) = true) by simp)]
    have : pyReplaceGo old new rest = rest :=
      ih (fun i => by simpa using h (i + 1))
    rw [this]

theorem isPrefixOf_append_self (a b : Str) : a.isPrefixOf (a ++ b) = true :=
  List.isPrefixOf_iff_prefix.2 (List.prefix_append a b)

theorem pyReplaceGo_first_occ (old new : Str) (pre t : Str) (hold : old ≠ [])
    (h : ∀ i < pre.length, old.isPrefixOf ((pre ++ old ++ t).drop i) = false) :
    pyReplaceGo old new (pre ++ old ++ t) = pre ++ new ++ pyReplaceGo old new t := by
  induction pre with
  | nil =>
    simp only [List.nil_append]
    obtain ⟨o, old', rfl⟩ : ∃ o old', old = o :: old' := by
      cases old with
      | nil => exact absurd rfl hold
      | cons o old' => exact ⟨o, old', rfl⟩
    rw [show (o :: old') ++ t = o :: (old' ++ t) by simp, pyReplaceGo_cons]
    have hcond : ((o :: old').isPrefixOf (o :: (old' ++ t)) && !(o :: old').isEmpty) = true := by
      have := isPrefixOf_append_self (o :: old') t
      simp only [List.cons_append] at this
      simp [this]
    rw [if_pos hcond]
    have hdrop : (old' ++ t).drop ((o :: old').length - 1) = t := by
      simp only [List.length_cons, Nat.add_sub_cancel]
      exact List.drop_left old' t
    rw [hdrop]
  | cons c pre' ih =>
    have h0 := h 0 (by simp)
    simp only [List.drop_zero] at h0
    rw [show (c :: pre') ++ old ++ t = c :: (pre' ++ old ++ t) by simp] at h0 ⊢
    rw [pyReplaceGo_cons, h0, if_neg (show ¬((false && !old.isEmpty) = true) by simp)]
    have hrec : pyReplaceGo old new (pre' ++ old ++ t) = pre' ++ new ++ pyReplaceGo old new t :=
      ih (fun i hi => by
        have := h (i + 1) (by simpa using Nat.succ_lt_succ hi)
        simpa using this)
    rw [hrec]
    simp

theorem pyReplace_self (s : Str) : pyReplace s s [] = [] := by
  cases s with
  | nil => simp [pyReplace]
  | cons c rest =>
    rw [pyReplace, if_neg (show ¬((c :: rest).isEmpty = true) by simp)]
    have := pyReplaceGo_first_occ (c :: rest) [] [] [] (by simp)
      (fun i hi => absurd hi (by simp))
    simpa [pyReplaceGo_nil] using this

theorem dropWhile_append_all {p : Char → Bool} (w t : Str)
    (h : ∀ c ∈ w, p c = true) :
    List.dropWhile p (w ++ t) = List.dropWhile p t := by
  induction w with
  | nil => simp
  | cons c w' ih =>
    rw [List.cons_append, List.dropWhile_cons, if_pos (h c (by simp))]
    exact ih (fun c hc => h c (by simp [hc]))

theorem dropWhile_all_nil {p : Char → Bool} (w : Str)
    (h : ∀ c ∈ w, p c = true) :
    List.dropWhile p w = [] := by
  have := dropWhile_append_all (p := p) w [] h
  simpa using this

theorem head?_dropWhile {p : Char → Bool} {l : Str} {c : Char}
    (h : (List.dropWhile p l).head? = some c) : p c = false := by
  induction l with
  | nil => simp at h
  | cons a l' ih =>
    rw [List.dropWhile_cons] at h
    by_cases hpa : p a = true
    · rw [if_pos hpa] at h
      exact ih h
    · rw [if_neg hpa] at h
      simp only [List.head?_cons, Option.some.injEq] at h
      subst h
      simpa using hpa

theorem mem_of_getLast? {l : Str} {a : Char} (h : l.getLast? = some a) : a ∈ l := by
  have hm : a ∈ l.getLast? := by rw [h]; rfl
  have := List.dropLast_append_getLast? a hm
  rw [← this]
  simp

/-- `pyStrip` of an all-whitespace-padded string whose core starts and ends
with a non-whitespace character. -/
theorem pyStrip_sandwich (w1 l w2 : Str)
    (hw1 : ∀ c ∈ w1, isPySpace c = true) (hw2 : ∀ c ∈ w2, isPySpace c = true)
    (hh : ∀ c, l.head? = some c → isPySpace c = false)
    (hg : ∀ c, l.getLast? = some c → isPySpace c = false) :
    pyStrip (w1 ++ l ++ w2) = l := by
  unfold pyStrip
  rw [show w1 ++ l ++ w2 = w1 ++ (l ++ w2) by simp,
      dropWhile_append_all w1 (l ++ w2) hw1]
  cases l with
  | nil =>
    simp only [List.nil_append]
    rw [dropWhile_all_nil w2 hw2]
    simp
  | cons a l' =>
    have ha : isPySpace a = false := hh a (by simp)
    rw [show (a :: l') ++ w2 = a :: (l' ++ w2) by simp, List.dropWhile_cons,
        if_neg (by simp [ha])]
    rw [show (a :: (l' ++ w2)).reverse = w2.reverse ++ (a :: l').reverse by simp,
        dropWhile_append_all w2.reverse ((a :: l').reverse)
          (fun c hc => hw2 c (List.mem_reverse.1 hc))]
    have : List.dropWhile isPySpace (a :: l').reverse = (a :: l').reverse := by
      cases hrev : (a :: l').reverse with
      | nil => simp at hrev
      | cons b r =>
        have hb : (a :: l').getLast? = some b := by
          rw [← List.head?_reverse, hrev]; simp
        rw [List.dropWhile_cons, if_neg (by simp [hg b hb])]
    rw [this, List.reverse_reverse]

/-- Each character of `pyStrip s` is a character of `s`. -/
theorem mem_pyStrip {s : Str} {c : Char} (h : c ∈ pyStrip s) : c ∈ s := by
  unfold pyStrip at h
  rw [List.mem_reverse] at h
  have h1 := ((List.dropWhile_sublist _).mem h)
  rw [List.mem_reverse] at h1
  exact (List.dropWhile_sublist _).mem h1

theorem pyStrip_head {s : Str} {c : Char}
    (h : (pyStrip s).head? = some c) : isPySpace c = false := by
  unfold pyStrip at h
  rw [List.head?_reverse] at h
  -- the getLast of the second dropWhile is the getLast of its suffix source,
  -- which is the head of the first dropWhile
  set a := List.dropWhile isPySpace s with ha
  set d := List.dropWhile isPySpace a.reverse with hd
  obtain ⟨u, hu⟩ : d <:+ a.reverse := List.dropWhile_suffix _
  have hdne : d ≠ [] := by
    intro hnil
    rw [hnil] at h
    simp at h
  have : a.reverse.getLast? = some c := by
    rw [← hu, List.getLast?_append_of_ne_nil u hdne, h]
  rw [List.getLast?_reverse] at this
  exact head?_dropWhile this

theorem pyStrip_getLast {s : Str} {c : Char}
    (h : (pyStrip s).getLast? = some c) : isPySpace c = false := by
  unfold pyStrip at h
  rw [List.getLast?_reverse] at h
  exact head?_dropWhile h

/-- `pyStrip` is idempotent. -/
theorem pyStrip_idem (s : Str) : pyStrip (pyStrip s) = pyStrip s := by
  have := pyStrip_sandwich [] (pyStrip s) [] (by simp) (by simp)
    (fun c hc => pyStrip_head hc) (fun c hc => pyStrip_getLast hc)
  simpa using this

theorem splitSemi_ne_nil (s : Str) : splitSemi s ≠ [] := by
  cases s with
  | nil => simp [splitSemi]
  | cons c rest =>
    rw [splitSemi]
    by_cases hc : c = ';'
    · simp [hc]
    · rw [if_neg hc]
      cases splitSemi rest <;> simp

theorem splitSemi_no_semi (s : Str) (h : ';' ∉ s) : splitSemi s = [s] := by
  induction s with
  | nil => simp [splitSemi]
  | cons c rest ih =>
    rw [splitSemi, if_neg (by intro hc; exact h (by simp [hc]))]
    rw [ih (fun hm => h (by simp [hm]))]

theorem splitSemi_append (a b : Str) :
    splitSemi (a ++ ';' :: b) = splitSemi a ++ splitSemi b := by
  induction a with
  | nil => simp [splitSemi]
  | cons c a' ih =>
    rw [List.cons_append, splitSemi]
    by_cases hc : c = ';'
    · rw [if_pos hc, ih, splitSemi, if_pos hc]
      simp
    · rw [if_neg hc, ih, splitSemi, if_neg hc]
      obtain ⟨h, t, hht⟩ : ∃ h t, splitSemi a' = h :: t := by
        cases hsa : splitSemi a' with
        | nil => exact absurd hsa (splitSemi_ne_nil a')
        | cons h t => exact ⟨h, t, rfl⟩
      rw [hht]
      simp

theorem getLastD_append_of_ne_nil {α : Type} (x y : List α) (d : α) (h : y ≠ []) :
    (x ++ y).getLastD d = y.getLastD d := by
  obtain ⟨c, hc⟩ : ∃ c, y.getLast? = some c := by
    cases hg : y.getLast? with
    | none => exact absurd (List.getLast?_eq_none_iff.1 hg) h
    | some c => exact ⟨c, rfl⟩
  rw [List.getLastD_eq_getLast?, List.getLastD_eq_getLast?,
      List.getLast?_append_of_ne_nil x h, hc]

/-! ## Behaviour of `extract_setup` -/

/-- A command containing no semicolon yields an empty setup. -/
theorem extract_setup_no_semi (cmd : Str) (h : ';' ∉ cmd) : extract_setup cmd = [] := by
  have h1 : ';' ∉ pyStrip cmd := fun hm => h (mem_pyStrip hm)
  have hgl : ¬ (pyStrip cmd).getLast? = some ';' := fun hg => h1 (mem_of_getLast? hg)
  have hcore : setupCore cmd = pyStrip cmd := by
    rw [setupCore, if_neg hgl]
  rw [extract_setup, hcore, splitSemi_no_semi _ h1]
  simp only [List.getLastD_cons, List.getLastD_nil]
  rw [pyStrip_idem]
  exact pyReplace_self _

/-- `extract_setup` on a command whose stripped form ends in exactly one
semicolon, decomposed as `p ++ w1 ++ l ++ w2 ++ [';']` where `l` is the
whitespace-stripped final clause, `w1, w2` are whitespace, every clause
boundary in `p` ends with a semicolon, and `l` occurs nowhere in the
command before its final position: the result is the command with the
final clause and the trailing semicolon removed. -/
theorem extract_setup_single_semi
    (cmd p w1 l w2 : Str)
    (hw1 : ∀ c ∈ w1, isPySpace c = true)
    (hw2 : ∀ c ∈ w2, isPySpace c = true)
    (hl : l ≠ [])
    (hsemi : ';' ∉ l)
    (hh : ∀ c, l.head? = some c → isPySpace c = false)
    (hg : ∀ c, l.getLast? = some c → isPySpace c = false)
    (hp : p = [] ∨ p.getLast? = some ';')
    (hstrip : pyStrip cmd = p ++ w1 ++ l ++ w2 ++ [';'])
    (hocc : ∀ i < (p ++ w1).length,
      l.isPrefixOf ((p ++ w1 ++ l ++ w2).drop i) = false) :
    extract_setup cmd = p ++ w1 ++ w2 := by
  have hnosemi_mid : ';' ∉ w1 ++ (l ++ w2) := by
    intro hm
    rcases List.mem_append.1 hm with hm1 | hm2
    · have := hw1 _ hm1
      simp [isPySpace] at this
    · rcases List.mem_append.1 hm2 with hm3 | hm4
      · exact hsemi hm3
      · have := hw2 _ hm4
        simp [isPySpace] at this
  have hcore : setupCore cmd = p ++ w1 ++ l ++ w2 := by
    rw [setupCore, hstrip]
    rw [show p ++ w1 ++ l ++ w2 ++ [';'] = (p ++ w1 ++ l ++ w2) ++ [';'] by simp]
    rw [List.getLast?_concat, if_pos rfl, List.dropLast_concat]
  have hlast : (splitSemi (setupCore cmd)).getLastD [] = w1 ++ (l ++ w2) := by
    rw [hcore]
    rcases hp with hpnil | hpsemi
    · subst hpnil
      rw [show [] ++ w1 ++ l ++ w2 = w1 ++ (l ++ w2) by simp]
      rw [splitSemi_no_semi _ hnosemi_mid]
      simp
    · obtain ⟨p', rfl⟩ : ∃ p', p = p' ++ [';'] := by
        have := List.dropLast_append_getLast (l := p) (by
          intro hnil
          rw [hnil] at hpsemi
          simp at hpsemi)
        refine ⟨p.dropLast, ?_⟩
        have hlast' : p.getLast (by
          intro hnil
          rw [hnil] at hpsemi
          simp at hpsemi) = ';' := by
          have hsome := List.getLast?_eq_getLast (l := p) (by
            intro hnil
            rw [hnil] at hpsemi
            simp at hpsemi)
          rw [hsome] at hpsemi
          exact Option.some.inj hpsemi
        rw [← hlast'] at *
        exact this.symm
      rw [show p' ++ [';'] ++ w1 ++ l ++ w2 = p' ++ ';' :: (w1 ++ (l ++ w2)) by simp]
      rw [splitSemi_append]
      rw [getLastD_append_of_ne_nil _ _ _ (splitSemi_ne_nil _)]
      rw [splitSemi_no_semi _ hnosemi_mid]
      simp
  have hstrip_last : pyStrip ((splitSemi (setupCore cmd)).getLastD []) = l := by
    rw [hlast, show w1 ++ (l ++ w2) = w1 ++ l ++ w2 by simp]
    exact pyStrip_sandwich w1 l w2 hw1 hw2 hh hg
  rw [extract_setup, hstrip_last, hcore]
  rw [pyReplace, if_neg (show ¬(l.isEmpty = true) by simpa using hl)]
  have hw2occ : ∀ i, l.isPrefixOf (w2.drop i) = false := by
    intro i
    cases hb : l.isPrefixOf (w2.drop i) with
    | false => rfl
    | true =>
      exfalso
      have hpref := List.isPrefixOf_iff_prefix.1 hb
      obtain ⟨a, l', rfl⟩ : ∃ a l', l = a :: l' := by
        cases l with
        | nil => exact absurd rfl hl
        | cons a l' => exact ⟨a, l', rfl⟩
      obtain ⟨rest, hrest⟩ := hpref
      have ha_mem : a ∈ w2 := by
        have : a ∈ w2.drop i := by
          rw [← hrest]; simp
        exact ((List.drop_suffix i w2).sublist).mem this
      have := hw2 a ha_mem
      rw [hh a (by simp)] at this
      exact Bool.false_ne_true this
  have hfirst := pyReplaceGo_first_occ l [] (p ++ w1) w2 hl (by
    intro i hi
    have := hocc i hi
    simpa using this)
  rw [show p ++ w1 ++ l ++ w2 = (p ++ w1) ++ l ++ w2 by simp] at *
  rw [hfirst, pyReplaceGo_no_occ _ _ _ hw2occ]
  simp

/-- The final clause is removed by a global replace: if the stripped final
clause `l` occurs both at an earlier position and at the end, both
occurrences are deleted, so the result is not the prefix of the command
before the final clause. -/
theorem extract_setup_global_replace
    (cmd p q l : Str)
    (hstrip : pyStrip cmd = cmd)
    (hend : ¬ cmd.getLast? = some ';')
    (hlastbit : pyStrip ((splitSemi cmd).getLastD []) = l)
    (hl : l ≠ [])
    (hdecomp : cmd = p ++ l ++ q ++ l)
    (hp : ∀ i < p.length, l.isPrefixOf (cmd.drop i) = false)
    (hq : ∀ i < q.length, l.isPrefixOf ((q ++ l).drop i) = false) :
    extract_setup cmd = p ++ q ∧ ∀ r, extract_setup cmd ≠ p ++ l ++ r := by
  have hcore : setupCore cmd = cmd := by
    rw [setupCore, hstrip, if_neg hend]
  have hresult : extract_setup cmd = p ++ q := by
    rw [extract_setup, hcore, hlastbit]
    rw [pyReplace, if_neg (show ¬(l.isEmpty = true) by simpa using hl)]
    have h1 := pyReplaceGo_first_occ l [] p (q ++ l) hl (by
      intro i hi
      have := hp i hi
      rw [hdecomp] at this
      simpa [List.append_assoc] using this)
    have h2 : pyReplaceGo l [] (q ++ l) = q := by
      have := pyReplaceGo_first_occ l [] q [] hl (by
        intro i hi
        have := hq i hi
        simpa using this)
      simpa [pyReplaceGo_nil] using this
    rw [show cmd = p ++ l ++ (q ++ l) by simpa [List.append_assoc] using hdecomp]
    rw [h1, h2]
    simp
  refine ⟨hresult, ?_⟩
  intro r heq
  rw [hresult] at heq
  have hq' : q = l ++ r := by
    have : p ++ q = p ++ (l ++ r) := by simpa [List.append_assoc] using heq
    exact List.append_cancel_left this
  have hqlen : 0 < q.length := by
    rw [hq']
    cases l with
    | nil => exact absurd rfl hl
    | cons a l' => simp
  have := hq 0 hqlen
  rw [List.drop_zero, hq', show (l ++ r) ++ l = l ++ (r ++ l) by simp,
      isPrefixOf_append_self] at this
  simp at this

/-! ## Behaviour of `wait_graceful` -/

/-- If the flag is never set during the inner loop's checks, the inner
loop completes all its iterations, sending no signal. -/
theorem innerLoop_no_flag (env : WGEnv) (n : Nat) :
    ∀ t, (∀ k < n, env.flag (t + 10 * k) = false) →
    innerLoop env t n = (false, t + 10 * n, []) := by
  induction n with
  | zero => intro t _; simp [innerLoop]
  | succ n ih =>
    intro t h
    have h0 : env.flag t = false := by
      have := h 0 (by omega)
      simpa using this
    rw [innerLoop, h0, if_neg (by simp)]
    have hrest : ∀ k < n, env.flag (t + 10 + 10 * k) = false := by
      intro k hk
      have := h (k + 1) (by omega)
      have harith : t + 10 * (k + 1) = t + 10 + 10 * k := by ring
      rwa [harith] at this
    rw [ih (t + 10) hrest]
    have : t + 10 + 10 * n = t + 10 * (n + 1) := by ring
    rw [this]

/-- If the flag becomes set at time `T` and the inner loop runs long
enough to check the flag at or after `T`, it fires: SIGTERM is sent to
the process group at the first check tick `≥ T`, at most 9 ticks after
`T` (or immediately if the flag was already set when the loop began). -/
theorem innerLoop_fires (env : WGEnv) (T : Nat)
    (hf : ∀ s, env.flag s = decide (T ≤ s)) :
    ∀ (n : Nat) (t : Nat), T ≤ t + 10 * n →
    ∃ tc, innerLoop env t (n + 1) = (true, tc, [(tc, WGSig.termGroup)]) ∧
      t ≤ tc ∧ tc ≤ max t (T + 9) := by
  intro n
  induction n with
  | zero =>
    intro t hT
    simp only [Nat.mul_zero, Nat.add_zero] at hT
    refine ⟨t, ?_, Nat.le_refl t, Nat.le_max_left _ _⟩
    rw [innerLoop, hf t, if_pos (by simpa using hT)]
  | succ n ih =>
    intro t hT
    by_cases hTt : T ≤ t
    · refine ⟨t, ?_, Nat.le_refl t, Nat.le_max_left _ _⟩
      rw [innerLoop, hf t, if_pos (by simpa using hTt)]
    · have hflag : env.flag t = false := by
        rw [hf t]
        simpa using hTt
      obtain ⟨tc, heq, hge, hle⟩ := ih (t + 10) (by omega)
      refine ⟨tc, ?_, by omega, ?_⟩
      · rw [innerLoop, hflag, if_neg (by simp)]
        exact heq
      · have h10 : t + 10 ≤ T + 9 := by omega
        have := Nat.max_le.1 (Nat.le_refl (max (t + 10) (T + 9)))
        have hle' : tc ≤ T + 9 := by
          rcases Nat.max_le.1 (Nat.le_refl (max (t + 10) (T + 9))) with _
          exact le_trans hle (by simp [Nat.max_le, h10])
        exact le_trans hle' (Nat.le_max_right _ _)

/-- If the flag is never set and the payload acquires exit code `c` at
time `E`, the wait loop (given enough outer iterations) returns that
exit code without sending any signal. -/
theorem waitLoop_natural_exit (env : WGEnv) (c : Int) (E : Nat)
    (hf : ∀ s, env.flag s = false)
    (he : ∀ s, env.pollAt s = if E ≤ s then some c else none) :
    ∀ (k t : Nat), E ≤ t + 601 * k →
    ∃ fuel tend, waitLoop env t none fuel = some (some c, tend, []) := by
  intro k
  induction k with
  | zero =>
    intro t hE
    simp only [Nat.mul_zero, Nat.add_zero] at hE
    refine ⟨1, t + 601, ?_⟩
    rw [waitLoop, innerLoop_no_flag env 60 (t + 1) (fun k _ => hf _),
        show t + 1 + 10 * 60 = t + 601 from by ring]
    simp [he (t + 601), show E ≤ t + 601 from by omega]
  | succ k ih =>
    intro t hE
    by_cases hE' : E ≤ t + 601
    · refine ⟨1, t + 601, ?_⟩
      rw [waitLoop, innerLoop_no_flag env 60 (t + 1) (fun k _ => hf _),
          show t + 1 + 10 * 60 = t + 601 from by ring]
      simp [he (t + 601), hE']
    · obtain ⟨fuel, tend, hrun⟩ := ih (t + 601) (by omega)
      refine ⟨fuel + 1, tend, ?_⟩
      rw [waitLoop, innerLoop_no_flag env 60 (t + 1) (fun k _ => hf _),
          show t + 1 + 10 * 60 = t + 601 from by ring]
      simp only [he (t + 601), if_neg hE']
      exact hrun

/-- If the flag becomes set at time `T` and the payload never exits on
its own, the wait loop sends SIGTERM to the process group at a tick
`tc ≤ T + 10`, sleeps the 3-second grace period, sends SIGKILL to the
leader pid at `tc + 30`, and returns the stale `None` exit code. -/
theorem waitLoop_cancelled (env : WGEnv) (T : Nat)
    (hf : ∀ s, env.flag s = decide (T ≤ s))
    (he : ∀ s, env.pollAt s = none) :
    ∀ (k t : Nat), T ≤ t + 601 * k + 591 → t ≤ T + 9 →
    ∃ fuel tc, waitLoop env t none fuel =
        some (none, tc + 30, [(tc, WGSig.termGroup), (tc + 30, WGSig.killPid)]) ∧
      t < tc ∧ tc ≤ T + 10 := by
  intro k
  induction k with
  | zero =>
    intro t hT ht
    simp only [Nat.mul_zero, Nat.add_zero] at hT
    obtain ⟨tc, heq, hge, hle⟩ := innerLoop_fires env T hf 59 (t + 1) (by omega)
    refine ⟨1, tc, ?_, by omega, ?_⟩
    · rw [show (59 : Nat) + 1 = 60 from rfl] at heq
      rw [waitLoop, heq]
      rfl
    · have : max (t + 1) (T + 9) ≤ T + 10 := by
        apply Nat.max_le.2
        exact ⟨by omega, by omega⟩
      omega
  | succ k ih =>
    intro t hT ht
    by_cases hT' : T ≤ t + 591
    · obtain ⟨tc, heq, hge, hle⟩ := innerLoop_fires env T hf 59 (t + 1) (by omega)
      refine ⟨1, tc, ?_, by omega, ?_⟩
      · rw [show (59 : Nat) + 1 = 60 from rfl] at heq
        rw [waitLoop, heq]
        rfl
      · have : max (t + 1) (T + 9) ≤ T + 10 := by
          apply Nat.max_le.2
          exact ⟨by omega, by omega⟩
        omega
    · have hnone : ∀ j < 60, env.flag (t + 1 + 10 * j) = false := by
        intro j hj
        rw [hf]
        simp only [decide_eq_false_iff_not]
        omega
      obtain ⟨fuel, tc, hrun, hgt, hle⟩ := ih (t + 601) (by omega) (by omega)
      refine ⟨fuel + 1, tc, ?_, by omega, hle⟩
      rw [waitLoop]
      rw [innerLoop_no_flag env 60 (t + 1) hnone]
      have harith : t + 1 + 10 * 60 = t + 601 := by ring
      rw [harith]
      simp only [he (t + 601)]
      exact hrun

/-! ## Claim theorems -/

/-- C1, counterexample: `"a;;"` ends in semicolons; removing its final
clause `"a"` and all trailing semicolons would leave the empty string,
but `extract_setup` returns `"a;"` — only one trailing semicolon is
removed and the (then empty) final clause deletes nothing. -/
theorem c1_counterexample :
    extract_setup "a;;".data = "a;".data ∧ ¬ extract_setup "a;;".data = [] := by
  decide

/-- C1 (amended): for a command whose stripped form ends in exactly one
semicolon, is decomposed as `p ++ w1 ++ l ++ w2 ++ [';']` with `l` its
whitespace-stripped final clause, every earlier clause of `p` closed by a
semicolon, and `l` occurring nowhere in the command before the final
clause, `extract_setup` removes exactly the final clause and that single
trailing semicolon, returning the setup prefix `p ++ w1 ++ w2`; and for
every command containing no semicolon it returns the empty string. -/
theorem c1_extract_setup_amended :
    (∀ cmd p w1 l w2 : Str,
      (∀ c ∈ w1, isPySpace c = true) →
      (∀ c ∈ w2, isPySpace c = true) →
      l ≠ [] →
      ';' ∉ l →
      l.head?.all (fun c => !isPySpace c) = true →
      l.getLast?.all (fun c => !isPySpace c) = true →
      (p = [] ∨ p.getLast? = some ';') →
      pyStrip cmd = p ++ w1 ++ l ++ w2 ++ [';'] →
      (∀ i < (p ++ w1).length, l.isPrefixOf ((p ++ w1 ++ l ++ w2).drop i) = false) →
      extract_setup cmd = p ++ w1 ++ w2) ∧
    (∀ cmd : Str, ';' ∉ cmd → extract_setup cmd = []) := by
  constructor
  · intro cmd p w1 l w2 hw1 hw2 hl hsemi hh hg hp hstrip hocc
    exact extract_setup_single_semi cmd p w1 l w2 hw1 hw2 hl hsemi
      (fun c hc => by rw [hc] at hh; simpa using hh)
      (fun c hc => by rw [hc] at hg; simpa using hg)
      hp hstrip hocc
  · exact extract_setup_no_semi

/-- Witness for the amended C1: `"a; b;"` yields the setup `"a; "`, and
the semicolon-free `"xy z"` yields the empty setup. -/
theorem c1_extract_setup_amended_witness :
    extract_setup "a; b;".data = "a; ".data ∧ extract_setup "xy z".data = [] := by
  constructor
  · have := c1_extract_setup_amended.1 "a; b;".data "a;".data " ".data "b".data []
      (by decide) (by decide) (by decide) (by decide) (by decide) (by decide)
      (by decide) (by decide) (by decide)
    exact this.trans (by decide)
  · exact c1_extract_setup_amended.2 "xy z".data (by decide)

/-- C9: `extract_setup` removes the final clause by a global substring
replacement, so when the stripped final clause `l` also occurs earlier
(the command is `p ++ l ++ q ++ l`, with the two shown occurrences the
only ones), the earlier occurrence is deleted as well: the result is
`p ++ q`, and in particular it is not any string that keeps the earlier
occurrence of `l` in place — not the prefix of the command before the
last semicolon. -/
theorem c9_global_replace (cmd p q l : Str)
    (hstrip : pyStrip cmd = cmd)
    (hend : ¬ cmd.getLast? = some ';')
    (hlastbit : pyStrip ((splitSemi cmd).getLastD []) = l)
    (hl : l ≠ [])
    (hdecomp : cmd = p ++ l ++ q ++ l)
    (hp : ∀ i < p.length, l.isPrefixOf (cmd.drop i) = false)
    (hq : ∀ i < q.length, l.isPrefixOf ((q ++ l).drop i) = false) :
    extract_setup cmd = p ++ q ∧ ∀ r, extract_setup cmd ≠ p ++ l ++ r :=
  extract_setup_global_replace cmd p q l hstrip hend hlastbit hl hdecomp hp hq

/-- Witness for C9: in `"ab; q; ab"` the stripped final clause `"ab"`
also opens the command; both occurrences are deleted, giving `"; q; "`
instead of the prefix `"ab; q; "`. -/
theorem c9_global_replace_witness :
    extract_setup "ab; q; ab".data = "; q; ".data ∧
    ¬ extract_setup "ab; q; ab".data = "ab; q; ".data := by
  have h := c9_global_replace "ab; q; ab".data [] "; q; ".data "ab".data
    (by decide) (by decide) (by decide) (by decide) (by decide) (by decide) (by decide)
  constructor
  · exact h.1.trans (by decide)
  · intro heq
    exact h.2 "; q; ".data (heq.trans (by decide))

/-- C2: if the cancellation flag becomes set at tick `T` (it reads true
exactly from `T` on) while the payload is still running (it never
acquires an exit status on its own), then `wait_graceful` sends SIGTERM
to the payload's entire process group at a tick `tc` within one coarse
poll interval of `T` (`tc ≤ T + 10` ticks, i.e. one second plus
scheduling slack), sleeps the fixed 3-second grace period, and sends
SIGKILL to the payload at `tc + 30 ≤ T + 40` ticks — after which the
supervised process is no longer alive — and then returns. -/
theorem c2_cancellation_kill (env : WGEnv) (T : Nat)
    (hf : ∀ s, env.flag s = decide (T ≤ s))
    (he : ∀ s, env.pollAt s = none) :
    ∃ fuel tc, wait_graceful env fuel =
        some (none, tc + 30, [(tc, WGSig.termGroup), (tc + 30, WGSig.killPid)]) ∧
      tc ≤ T + 10 ∧ tc + 30 ≤ T + 40 := by
  obtain ⟨fuel, tc, hrun, _, hle⟩ :=
    waitLoop_cancelled env T hf he T 0 (by
      have : T ≤ 601 * T + 591 := by nlinarith
      omega) (by omega)
  exact ⟨fuel, tc, hrun, hle, by omega⟩

/-- Witness for C2: flag set from tick 0, payload never exits: SIGTERM to
the group and SIGKILL to the pid are sent and the supervisor returns. -/
theorem c2_cancellation_kill_witness :
    ∃ fuel tc, wait_graceful ⟨fun _ => true, fun _ => none⟩ fuel =
        some (none, tc + 30, [(tc, WGSig.termGroup), (tc + 30, WGSig.killPid)]) ∧
      tc ≤ 0 + 10 ∧ tc + 30 ≤ 0 + 40 :=
  c2_cancellation_kill ⟨fun _ => true, fun _ => none⟩ 0
    (fun s => by simp) (fun s => rfl)

/-- C3, counterexample: the payload exits with code 0 at tick 20, and the
cancellation flag becomes set only afterwards, at tick 300 — so the
payload "exits with code 0 before the flag is ever set". But the code
polls the exit status only after the full 60-second flag loop (the first
poll would come at tick 601), so the flag check at tick 301 fires first:
SIGTERM is sent to the process group, SIGKILL follows after the 3-second
grace, and the stale `None` exit code is returned instead of the
payload's own exit code 0 — falsifying both parts of the claim. -/
theorem c3_counterexample :
    (20 : Nat) < 300 ∧
    wait_graceful ⟨fun s => decide (300 ≤ s), fun s => if 20 ≤ s then some 0 else none⟩ 1 =
      some (none, 331, [(301, WGSig.termGroup), (331, WGSig.killPid)]) ∧
    ∀ tend, ¬ wait_graceful
        ⟨fun s => decide (300 ≤ s), fun s => if 20 ≤ s then some 0 else none⟩ 1 =
      some (some 0, tend, []) := by
  refine ⟨by decide, by decide, fun tend h => ?_⟩
  rw [show wait_graceful
        ⟨fun s => decide (300 ≤ s), fun s => if 20 ≤ s then some 0 else none⟩ 1 =
      some (none, 331, [(301, WGSig.termGroup), (331, WGSig.killPid)]) by decide] at h
  simp at h

/-- C3 (amended): if the payload exits with code 0 (its poll status
becomes `0` at tick `E`) and the cancellation flag is never set at any
time during the supervision — not merely not before the exit —
`wait_graceful` sends no signal at all and returns the payload's own
exit code. (The restriction is forced: the exit status is polled only
once per outer cycle, after the full flag loop, so a flag set even after
a 0-exit still triggers the SIGTERM/SIGKILL path and a stale `None`
return.) -/
theorem c3_natural_completion (env : WGEnv) (E : Nat)
    (hf : ∀ s, env.flag s = false)
    (he : ∀ s, env.pollAt s = if E ≤ s then some 0 else none) :
    ∃ fuel tend, wait_graceful env fuel = some (some 0, tend, []) := by
  obtain ⟨fuel, tend, hrun⟩ := waitLoop_natural_exit env 0 E hf he E 0 (by nlinarith)
  exact ⟨fuel, tend, hrun⟩

/-- Witness for the amended C3: payload already exited with code 0 at
tick 0, flag never set: the supervisor returns exit code 0 with an empty
signal trace. -/
theorem c3_natural_completion_witness :
    ∃ fuel tend, wait_graceful ⟨fun _ => false, fun _ => some 0⟩ fuel =
      some (some 0, tend, []) :=
  c3_natural_completion ⟨fun _ => false, fun _ => some 0⟩ 0
    (fun s => rfl) (fun s => by simp)

/-- C8: the cancellation flag is monotonic. In the source the only
operations ever applied to `args.graceful_stop` are the `set()` in the
installed SIGINT handler `interrupt` and `is_set()` reads: once the flag
is true, every further sequence of operations leaves it true; a redundant
SIGINT on an already-set flag is a no-op on its value; and reads never
change it. -/
theorem c8_flag_monotonic :
    (∀ ops : List FlagOp, flagRun true ops = true) ∧
    flagStep true FlagOp.sigint = true ∧
    (∀ b : Bool, flagStep b FlagOp.observe = b) := by
  refine ⟨?_, rfl, fun b => rfl⟩
  intro ops
  induction ops with
  | nil => rfl
  | cons op rest ih =>
    cases op with
    | sigint => exact ih
    | observe => exact ih

/-- C5, counterexample: `stop_utilities` never removes entries from the
utility table — with one registered utility the table still holds that
entry on return, so the table is not cleared. -/
theorem c5_counterexample :
    (stop_utilities ⟨fun _ => 15, fun p => p, fun _ => false⟩
        [("mon".data, some 5)]).1 = [("mon".data, some 5)] ∧
    ¬ (stop_utilities ⟨fun _ => 15, fun p => p, fun _ => false⟩
        [("mon".data, some 5)]).1 = [] := by
  decide

/-- C5 (amended): for every utility table and every registered utility
with a live handle, `stop_utilities` attempts the utility's designated
termination signal on that utility's process group (an `os.killpg`
failure is caught and logged, never propagated) and invokes the
post-stop hook for it — but on return the utility table is unchanged,
not cleared: the code never removes the entries. -/
theorem c5_stop_utilities_amended (o : StopOracle) (utils : List (Str × Option Nat))
    (name : Str) (pid : Nat) (h : (name, some pid) ∈ utils) :
    (stop_utilities o utils).1 = utils ∧
    (if o.killFails pid then SEvent.killpgError pid
     else SEvent.killpgSent (o.pgidOf pid) (o.killSig name)) ∈ (stop_utilities o utils).2 ∧
    SEvent.hookInvoked name ∈ (stop_utilities o utils).2 := by
  refine ⟨rfl, ?_, ?_⟩
  · exact List.mem_flatMap.2 ⟨(name, some pid), h, by simp⟩
  · exact List.mem_flatMap.2 ⟨(name, some pid), h, by simp⟩

/-- Witness for the amended C5: one utility `"mm"` with pid 3; the
SIGTERM-to-group attempt and the hook invocation are both recorded and
the table is returned unchanged. -/
theorem c5_stop_utilities_amended_witness :
    (stop_utilities ⟨fun _ => 15, fun p => p + 1, fun _ => false⟩
        [("mm".data, some 3)]).1 = [("mm".data, some 3)] ∧
    SEvent.killpgSent 4 15 ∈
      (stop_utilities ⟨fun _ => 15, fun p => p + 1, fun _ => false⟩
        [("mm".data, some 3)]).2 ∧
    SEvent.hookInvoked "mm".data ∈
      (stop_utilities ⟨fun _ => 15, fun p => p + 1, fun _ => false⟩
        [("mm".data, some 3)]).2 := by
  have h := c5_stop_utilities_amended ⟨fun _ => 15, fun p => p + 1, fun _ => false⟩
    [("mm".data, some 3)] "mm".data 3 (by decide)
  exact ⟨h.1, by simpa using h.2.1, h.2.2⟩

/-- C4: in any iteration of the HPO loop in which the preprocess step
runs and returns the reserved sentinel exit code 160, the loop
terminates with overall exit code 0, the job's error list is exactly
what it was before the iteration (no error is appended — neither in
`execute_utility_command` nor in `run_preprocess`), and the payload
launch is never attempted in that iteration. -/
theorem c4_hpo_sentinel (o : RunOracle) (cmd : Str) (job : Job) (n fuel : Nat)
    (hcmd : o.preCmd n ≠ none)
    (hex : o.preExit n = 160) :
    (runLoop o cmd job n (fuel + 1)).1 = 0 ∧
    (runLoop o cmd job n (fuel + 1)).2.1.piloterrorcodes = job.piloterrorcodes ∧
    ∀ c, REvent.launchAttempt c ∉ (runLoop o cmd job n (fuel + 1)).2.2 := by
  obtain ⟨pc, hpc⟩ := Option.ne_none_iff_exists'.1 hcmd
  cases hnj : o.newJobparams n with
  | none =>
    simp [runLoop, run_preprocess, execute_utility_command, hnj, hpc, hex]
  | some ps =>
    simp [runLoop, run_preprocess, execute_utility_command, hnj, hpc, hex]

/-- Witness for C4: a concrete oracle whose preprocess command exists and
exits 160 in iteration 1; the loop returns 0, appends no error and never
attempts a launch. -/
theorem c4_hpo_sentinel_witness :
    (runLoop
      { payloadCommand := Except.ok "x".data, newJobparams := fun _ => none,
        preCmd := fun _ => some "p".data, preExit := fun _ => 160,
        launchOk := fun _ => true, launchPid := fun _ => 4,
        startedUtility := fun _ => none, waitExit := fun _ => some 0,
        postCmd := fun _ => none, postExit := fun _ => 0,
        stop := ⟨fun _ => 15, fun p => p, fun _ => false⟩ }
      "x".data ⟨[], [], [], [], [], false, none, none⟩ 1 1).1 = 0 ∧
    (runLoop
      { payloadCommand := Except.ok "x".data, newJobparams := fun _ => none,
        preCmd := fun _ => some "p".data, preExit := fun _ => 160,
        launchOk := fun _ => true, launchPid := fun _ => 4,
        startedUtility := fun _ => none, waitExit := fun _ => some 0,
        postCmd := fun _ => none, postExit := fun _ => 0,
        stop := ⟨fun _ => 15, fun p => p, fun _ => false⟩ }
      "x".data ⟨[], [], [], [], [], false, none, none⟩ 1 1).2.1.piloterrorcodes = [] ∧
    ∀ c, REvent.launchAttempt c ∉
      (runLoop
        { payloadCommand := Except.ok "x".data, newJobparams := fun _ => none,
          preCmd := fun _ => some "p".data, preExit := fun _ => 160,
          launchOk := fun _ => true, launchPid := fun _ => 4,
          startedUtility := fun _ => none, waitExit := fun _ => some 0,
          postCmd := fun _ => none, postExit := fun _ => 0,
          stop := ⟨fun _ => 15, fun p => p, fun _ => false⟩ }
        "x".data ⟨[], [], [], [], [], false, none, none⟩ 1 1).2.2 :=
  c4_hpo_sentinel _ "x".data ⟨[], [], [], [], [], false, none, none⟩ 1 0
    (by decide) rfl

/-- `run_payload` reports exactly one launch attempt, with the command it
was given, whether or not the launch succeeds. -/
theorem run_payload_events (o : RunOracle) (n : Nat) (job : Job) (cmd : Str) :
    (run_payload o n job cmd).2 = [REvent.launchAttempt cmd] := by
  by_cases hlk : o.launchOk n = true <;>
    cases hsu : o.startedUtility n <;>
      simp [run_payload, hlk, hsu]

/-- A failed launch returns no job handle. -/
theorem run_payload_none (o : RunOracle) (n : Nat) (job : Job) (cmd : Str)
    (hlk : o.launchOk n = false) :
    run_payload o n job cmd = (none, [REvent.launchAttempt cmd]) := by
  simp [run_payload, hlk]

/-- Whenever `run_payload` returns a job handle, that job carries the
same error list and HPO flag as the job it was given. -/
theorem run_payload_eq_some (o : RunOracle) (n : Nat) (job : Job) (cmd : Str)
    (job2 : Job) (ev : List REvent)
    (h : run_payload o n job cmd = (some job2, ev)) :
    job2.piloterrorcodes = job.piloterrorcodes ∧ job2.is_hpo = job.is_hpo := by
  by_cases hlk : o.launchOk n = true
  · cases hsu : o.startedUtility n with
    | none =>
      simp only [run_payload, hlk, if_pos, hsu] at h
      obtain ⟨h1, -⟩ := Prod.mk.injEq .. ▸ h
      rw [← Option.some.inj h1]
      exact ⟨rfl, rfl⟩
    | some entry =>
      simp only [run_payload, hlk, if_pos, hsu] at h
      obtain ⟨h1, -⟩ := Prod.mk.injEq .. ▸ h
      rw [← Option.some.inj h1]
      exact ⟨rfl, rfl⟩
  · rw [run_payload_none o n job cmd (by simpa using hlk)] at h
    simp at h

/-- The tail of an iteration only ever appends to the job's error list. -/
theorem afterWait_errors_prefix (o : RunOracle) (n : Nat) (job2 : Job) :
    job2.piloterrorcodes <+: (afterWait o n job2).2.1.piloterrorcodes := by
  rcases hw : o.waitExit n with _ | c
  · by_cases hut : job2.utilities = [] <;>
      simp [afterWait, hw, hut, stop_utilities]
  · by_cases hc0 : c = 0
    · subst hc0
      rcases hp : o.postCmd n with _ | pc
      · by_cases hut : job2.utilities = [] <;>
          simp [afterWait, hw, hp, hut, stop_utilities]
      · by_cases hpost : ¬o.postExit n = 0 ∧ ¬o.postExit n = 160 <;>
          by_cases hut : job2.utilities = [] <;>
            simp [afterWait, hw, hp, hpost, hut, stop_utilities,
              execute_utility_command, add_error_code]
    · by_cases hut : job2.utilities = [] <;>
        simp [afterWait, hw, hc0, hut, stop_utilities]

/-- The preprocess step only ever appends to the job's error list. -/
theorem run_preprocess_prefix (o : RunOracle) (n : Nat) (job : Job) :
    job.piloterrorcodes <+: (run_preprocess o n job).2.1.piloterrorcodes := by
  have main : ∀ job0 : Job, job0.piloterrorcodes = job.piloterrorcodes →
      ∀ c, o.preCmd n = some c →
      job.piloterrorcodes <+:
        (let cmd := job0.setup ++ c
         let r := execute_utility_command cmd "preprocess".data (o.preExit n) job0
         let job2 := if r.1 = 160 then r.2.1
           else if r.1 ≠ 0 then
             {r.2.1 with piloterrorcodes :=
               add_error_code ErrCode.preprocessFailure r.2.1.piloterrorcodes}
           else r.2.1
         (r.1, job2, r.2.2)).2.1.piloterrorcodes := by
    intro job0 h0 c hc
    by_cases h160 : o.preExit n = 160
    · simp [execute_utility_command, h160, h0]
    · by_cases hz : o.preExit n = 0
      · simp [execute_utility_command, hz, h0]
      · simp [execute_utility_command, h160, hz, h0, add_error_code]
  cases hnj : o.newJobparams n with
  | none =>
    rcases hpc : o.preCmd n with _ | c
    · simp [run_preprocess, hnj, hpc]
    · have := main job rfl c hpc
      simpa [run_preprocess, hnj, hpc] using this
  | some ps =>
    rcases hpc : o.preCmd n with _ | c
    · simp [run_preprocess, hnj, hpc]
    · have := main {job with jobparams := ps} rfl c hpc
      simpa [run_preprocess, hnj, hpc] using this

/-- With no preprocess command and no jobparams rewrite, the preprocess
step is a no-op returning exit code 0. -/
theorem run_preprocess_none (o : RunOracle) (n : Nat) (job : Job)
    (hpre : o.preCmd n = none) (hnj : o.newJobparams n = none) :
    run_preprocess o n job = (0, job, []) := by
  simp [run_preprocess, hpre, hnj]

/-- A successful launch records pid, pgrp and the `running` state on the
job and leaves its error list, HPO flag, setup and jobparams unchanged. -/
theorem run_payload_some (o : RunOracle) (n : Nat) (job : Job) (cmd : Str)
    (hlk : o.launchOk n = true) :
    ∃ job2, run_payload o n job cmd = (some job2, [REvent.launchAttempt cmd]) ∧
      job2.piloterrorcodes = job.piloterrorcodes ∧
      job2.is_hpo = job.is_hpo ∧
      job2.setup = job.setup ∧
      job2.jobparams = job.jobparams := by
  cases hsu : o.startedUtility n with
  | none =>
    exact ⟨{job with pid := some (o.launchPid n),
                     pgrp := some (o.stop.pgidOf (o.launchPid n)),
                     state := "running".data},
      by simp [run_payload, hlk, hsu], rfl, rfl, rfl, rfl⟩
  | some entry =>
    exact ⟨{job with pid := some (o.launchPid n),
                     pgrp := some (o.stop.pgidOf (o.launchPid n)),
                     state := "running".data,
                     utilities := job.utilities ++ [entry]},
      by simp [run_payload, hlk, hsu], rfl, rfl, rfl, rfl⟩

/-- When the payload exited 0 and a postprocess command exists, the tail
of the iteration returns the postprocess exit code while the state stays
`finished` and the HPO flag is untouched. -/
theorem afterWait_success (o : RunOracle) (n : Nat) (job2 : Job) (pc : Str)
    (hw : o.waitExit n = some 0) (hpc : o.postCmd n = some pc) :
    (afterWait o n job2).1 = o.postExit n ∧
    (afterWait o n job2).2.1.state = "finished".data ∧
    (afterWait o n job2).2.1.is_hpo = job2.is_hpo := by
  by_cases hpost : ¬o.postExit n = 0 ∧ ¬o.postExit n = 160 <;>
    by_cases hut : job2.utilities = [] <;>
      simp [afterWait, hw, hpc, execute_utility_command, stop_utilities, hpost, hut]

/-- Across any number of HPO iterations, the job's error list is only
ever appended to: the incoming list is a prefix of the final one. -/
theorem runLoop_errors_prefix (o : RunOracle) :
    ∀ (fuel : Nat) (cmd : Str) (job : Job) (n : Nat),
    job.piloterrorcodes <+: (runLoop o cmd job n fuel).2.1.piloterrorcodes := by
  intro fuel
  induction fuel with
  | zero =>
    intro cmd job n
    simp [runLoop]
  | succ fuel ih =>
    intro cmd job n
    have h1 := run_preprocess_prefix o n job
    simp only [runLoop]
    split
    · exact h1
    · split
      · exact h1
      · rename_i job2 ev2 heq
        obtain ⟨herr, -⟩ := run_payload_eq_some o n _ _ job2 ev2 heq
        have h2 : job.piloterrorcodes <+: job2.piloterrorcodes := herr ▸ h1
        have h3 := afterWait_errors_prefix o n job2
        split
        · exact (h2.trans h3).trans (ih _ _ _)
        · exact h2.trans h3

/-- If the preprocess step is a no-op, the iteration always reaches the
payload launch: a launch attempt with the current command is recorded,
whether or not the launch then succeeds. -/
theorem runLoop_attempts_launch (o : RunOracle) (cmd : Str) (job : Job) (n fuel : Nat)
    (hpre : o.preCmd n = none) (hnj : o.newJobparams n = none) :
    REvent.launchAttempt cmd ∈ (runLoop o cmd job n (fuel + 1)).2.2 := by
  have hpre_eq := run_preprocess_none o n job hpre hnj
  have hev2 := run_payload_events o n job cmd
  simp only [runLoop, hpre_eq]
  norm_num
  rcases hpl : run_payload o n job cmd with ⟨po, ev2⟩
  rw [hpl] at hev2
  simp only at hev2
  subst hev2
  cases po with
  | none => simp
  | some j2 =>
    split
    · rename_i ev2' heq
      simp at heq
    · rename_i job2' ev2' heq
      have h2 : ev2' = [REvent.launchAttempt cmd] := by
        have := congrArg Prod.snd heq
        simpa using this.symm
      subst h2
      split <;> simp

/-- C10: in an iteration whose payload succeeds (wait reports exit
code 0, so the state is classified `finished`, not `failed`) and whose
after-payload-finished utility command exists, `Executor.run` overwrites
the exit code with the postprocess command's exit code: for a non-HPO
job the loop returns the postprocess exit code — not the payload's own
exit code 0 — while the job's state remains `finished`, the one
classified from the payload exit code. -/
theorem c10_postprocess_overwrites (o : RunOracle) (cmd : Str) (job : Job) (n fuel : Nat)
    (hpre : o.preCmd n = none) (hnj : o.newJobparams n = none)
    (hlk : o.launchOk n = true)
    (hw : o.waitExit n = some 0)
    (hpc : o.postCmd n ≠ none)
    (hhpo : job.is_hpo = false) :
    (runLoop o cmd job n (fuel + 1)).1 = o.postExit n ∧
    (runLoop o cmd job n (fuel + 1)).2.1.state = "finished".data := by
  obtain ⟨pc, hpc'⟩ := Option.ne_none_iff_exists'.1 hpc
  obtain ⟨job2, hpl, _herr, hhpo2, _hsetup, _hparams⟩ := run_payload_some o n job cmd hlk
  have hpre_eq := run_preprocess_none o n job hpre hnj
  obtain ⟨hec, hstate, hhpo3⟩ := afterWait_success o n job2 pc hw hpc'
  rw [hhpo2, hhpo] at hhpo3
  simp only [runLoop, hpre_eq]
  norm_num
  rw [hpl]
  simp [hhpo3, hec, hstate]

/-- Witness for C10: payload exits 0, the postprocess command exists and
exits 77; the loop returns 77 while the job state stays `finished`. -/
theorem c10_postprocess_overwrites_witness :
    (runLoop
      { payloadCommand := Except.ok "x".data, newJobparams := fun _ => none,
        preCmd := fun _ => none, preExit := fun _ => 0,
        launchOk := fun _ => true, launchPid := fun _ => 4,
        startedUtility := fun _ => none, waitExit := fun _ => some 0,
        postCmd := fun _ => some "post".data, postExit := fun _ => 77,
        stop := ⟨fun _ => 15, fun p => p, fun _ => false⟩ }
      "x".data ⟨[], [], [], [], [], false, none, none⟩ 1 1).1 = 77 ∧
    (runLoop
      { payloadCommand := Except.ok "x".data, newJobparams := fun _ => none,
        preCmd := fun _ => none, preExit := fun _ => 0,
        launchOk := fun _ => true, launchPid := fun _ => 4,
        startedUtility := fun _ => none, waitExit := fun _ => some 0,
        postCmd := fun _ => some "post".data, postExit := fun _ => 77,
        stop := ⟨fun _ => 15, fun p => p, fun _ => false⟩ }
      "x".data ⟨[], [], [], [], [], false, none, none⟩ 1 1).2.1.state = "finished".data :=
  c10_postprocess_overwrites _ "x".data ⟨[], [], [], [], [], false, none, none⟩ 1 0
    rfl rfl rfl rfl (by decide) rfl

/-- C6, counterexample: the command builder reports a structured error
(code 7); `get_payload_command` appends the code and returns the empty
command — but `run` then proceeds to attempt the payload launch with
that empty command: the recorded events contain a launch attempt with
the empty string, so the empty command is not treated as fatal. -/
theorem c6_counterexample :
    (get_payload_command
      { payloadCommand := Except.error (ErrCode.builderError 7),
        newJobparams := fun _ => none, preCmd := fun _ => none,
        preExit := fun _ => 0, launchOk := fun _ => true,
        launchPid := fun _ => 4, startedUtility := fun _ => none,
        waitExit := fun _ => some 0, postCmd := fun _ => none,
        postExit := fun _ => 0,
        stop := ⟨fun _ => 15, fun p => p, fun _ => false⟩ }
      ⟨[], [], [], [], [], false, none, none⟩).1 = [] ∧
    REvent.launchAttempt [] ∈
      (run
        { payloadCommand := Except.error (ErrCode.builderError 7),
          newJobparams := fun _ => none, preCmd := fun _ => none,
          preExit := fun _ => 0, launchOk := fun _ => true,
          launchPid := fun _ => 4, startedUtility := fun _ => none,
          waitExit := fun _ => some 0, postCmd := fun _ => none,
          postExit := fun _ => 0,
          stop := ⟨fun _ => 15, fun p => p, fun _ => false⟩ }
        ⟨[], [], [], [], [], false, none, none⟩ 1).2.2 := by
  decide

/-- C6 (amended): when the command builder reports a structured error,
`get_payload_command` appends the error code to the job's error list and
returns the empty command string; but `Executor.run` performs no check
on the empty command — with the preprocess step a no-op it proceeds to
attempt the payload launch with the empty command. -/
theorem c6_builder_error_not_fatal (o : RunOracle) (job : Job) (e : ErrCode) (fuel : Nat)
    (hb : o.payloadCommand = Except.error e)
    (hpre : o.preCmd 1 = none) (hnj : o.newJobparams 1 = none) :
    (get_payload_command o job).1 = [] ∧
    (get_payload_command o job).2.piloterrorcodes = job.piloterrorcodes ++ [e] ∧
    REvent.launchAttempt [] ∈ (run o job (fuel + 1)).2.2 := by
  have hgp : get_payload_command o job =
      ([], {job with piloterrorcodes := job.piloterrorcodes ++ [e]}) := by
    simp [get_payload_command, hb, add_error_code]
  refine ⟨by rw [hgp], by rw [hgp], ?_⟩
  simp only [run, hgp]
  exact runLoop_attempts_launch o [] _ 1 fuel hpre hnj

/-- Witness for the amended C6: the concrete failing builder of the
counterexample oracle; the error is recorded, the command is empty, and
the launch is still attempted. -/
theorem c6_builder_error_not_fatal_witness :
    (get_payload_command
      { payloadCommand := Except.error (ErrCode.builderError 9),
        newJobparams := fun _ => none, preCmd := fun _ => none,
        preExit := fun _ => 0, launchOk := fun _ => false,
        launchPid := fun _ => 4, startedUtility := fun _ => none,
        waitExit := fun _ => none, postCmd := fun _ => none,
        postExit := fun _ => 0,
        stop := ⟨fun _ => 15, fun p => p, fun _ => false⟩ }
      ⟨[], [], [], [], [], false, none, none⟩).1 = [] ∧
    (get_payload_command
      { payloadCommand := Except.error (ErrCode.builderError 9),
        newJobparams := fun _ => none, preCmd := fun _ => none,
        preExit := fun _ => 0, launchOk := fun _ => false,
        launchPid := fun _ => 4, startedUtility := fun _ => none,
        waitExit := fun _ => none, postCmd := fun _ => none,
        postExit := fun _ => 0,
        stop := ⟨fun _ => 15, fun p => p, fun _ => false⟩ }
      ⟨[], [], [], [], [], false, none, none⟩).2.piloterrorcodes =
        [] ++ [ErrCode.builderError 9] ∧
    REvent.launchAttempt [] ∈
      (run
        { payloadCommand := Except.error (ErrCode.builderError 9),
          newJobparams := fun _ => none, preCmd := fun _ => none,
          preExit := fun _ => 0, launchOk := fun _ => false,
          launchPid := fun _ => 4, startedUtility := fun _ => none,
          waitExit := fun _ => none, postCmd := fun _ => none,
          postExit := fun _ => 0,
          stop := ⟨fun _ => 15, fun p => p, fun _ => false⟩ }
        ⟨[], [], [], [], [], false, none, none⟩ (0 + 1)).2.2 :=
  c6_builder_error_not_fatal _ ⟨[], [], [], [], [], false, none, none⟩
    (ErrCode.builderError 9) 0 rfl rfl rfl

/-- C7, counterexample: a single preprocess failure (exit code 7) is one
failure, but the run ends with two `PREPROCESSFAILURE` entries on the
job's error list — one appended by `execute_utility_command` and a
second by `run_preprocess` — so N distinct failures do not yield exactly
N entries. -/
theorem c7_counterexample :
    (run
      { payloadCommand := Except.ok "c".data,
        newJobparams := fun _ => none, preCmd := fun _ => some "p".data,
        preExit := fun _ => 7, launchOk := fun _ => true,
        launchPid := fun _ => 4, startedUtility := fun _ => none,
        waitExit := fun _ => some 0, postCmd := fun _ => none,
        postExit := fun _ => 0,
        stop := ⟨fun _ => 15, fun p => p, fun _ => false⟩ }
      ⟨[], [], [], [], [], false, none, none⟩ 1).2.1.piloterrorcodes =
      [ErrCode.preprocessFailure, ErrCode.preprocessFailure] ∧
    ¬ (run
      { payloadCommand := Except.ok "c".data,
        newJobparams := fun _ => none, preCmd := fun _ => some "p".data,
        preExit := fun _ => 7, launchOk := fun _ => true,
        launchPid := fun _ => 4, startedUtility := fun _ => none,
        waitExit := fun _ => some 0, postCmd := fun _ => none,
        postExit := fun _ => 0,
        stop := ⟨fun _ => 15, fun p => p, fun _ => false⟩ }
      ⟨[], [], [], [], [], false, none, none⟩ 1).2.1.piloterrorcodes.length = 1 := by
  decide

/-- C7 (amended): the job's error list is append-only — across any run
of the HPO loop the incoming list is a prefix of the final one, entries
are recorded in occurrence order and never overwritten or dropped — but
the entry count is not exactly the failure count: a preprocess failure
appends its code twice (once in `execute_utility_command`, once more in
`run_preprocess`), a postprocess failure appends once, and a launch
failure appends nothing. -/
theorem c7_error_accumulation_amended :
    (∀ (o : RunOracle) (fuel : Nat) (cmd : Str) (job : Job) (n : Nat),
      job.piloterrorcodes <+: (runLoop o cmd job n fuel).2.1.piloterrorcodes) ∧
    (∀ (o : RunOracle) (n : Nat) (job : Job) (c : Str),
      o.preCmd n = some c → ¬ o.preExit n = 0 → ¬ o.preExit n = 160 →
      o.newJobparams n = none →
      (run_preprocess o n job).2.1.piloterrorcodes =
        job.piloterrorcodes ++ [ErrCode.preprocessFailure, ErrCode.preprocessFailure]) ∧
    (∀ (cmd : Str) (ec : Int) (job : Job), ¬ ec = 0 → ¬ ec = 160 →
      (execute_utility_command cmd "postprocess".data ec job).2.1.piloterrorcodes =
        job.piloterrorcodes ++ [ErrCode.postprocessFailure]) ∧
    (∀ (o : RunOracle) (cmd : Str) (job : Job) (n fuel : Nat),
      o.preCmd n = none → o.newJobparams n = none → o.launchOk n = false →
      (runLoop o cmd job n (fuel + 1)).2.1.piloterrorcodes = job.piloterrorcodes) := by
  refine ⟨fun o fuel cmd job n => runLoop_errors_prefix o fuel cmd job n, ?_, ?_, ?_⟩
  · intro o n job c hc h0 h160 hnj
    simp [run_preprocess, execute_utility_command, hc, h0, h160, hnj, add_error_code]
  · intro cmd ec job h0 h160
    simp [execute_utility_command, h0, h160, add_error_code]
  · intro o cmd job n fuel hpre hnj hlk
    have hpre_eq := run_preprocess_none o n job hpre hnj
    have hpl := run_payload_none o n job cmd hlk
    simp only [runLoop, hpre_eq]
    norm_num
    rw [hpl]

/-- Witness for the amended C7: the append-only part at fuel 0; the
double preprocess append, single postprocess append and zero-append
launch failure at concrete inputs. -/
theorem c7_error_accumulation_amended_witness :
    ([] : List ErrCode) <+:
      (runLoop
        { payloadCommand := Except.ok "c".data,
          newJobparams := fun _ => none, preCmd := fun _ => none,
          preExit := fun _ => 0, launchOk := fun _ => true,
          launchPid := fun _ => 4, startedUtility := fun _ => none,
          waitExit := fun _ => some 0, postCmd := fun _ => none,
          postExit := fun _ => 0,
          stop := ⟨fun _ => 15, fun p => p, fun _ => false⟩ }
        "c".data ⟨[], [], [], [], [], false, none, none⟩ 1 0).2.1.piloterrorcodes ∧
    (run_preprocess
      { payloadCommand := Except.ok "c".data,
        newJobparams := fun _ => none, preCmd := fun _ => some "p".data,
        preExit := fun _ => 7, launchOk := fun _ => true,
        launchPid := fun _ => 4, startedUtility := fun _ => none,
        waitExit := fun _ => some 0, postCmd := fun _ => none,
        postExit := fun _ => 0,
        stop := ⟨fun _ => 15, fun p => p, fun _ => false⟩ }
      1 ⟨[], [], [], [], [], false, none, none⟩).2.1.piloterrorcodes =
      [] ++ [ErrCode.preprocessFailure, ErrCode.preprocessFailure] ∧
    (execute_utility_command "q".data "postprocess".data 3
      ⟨[], [], [], [], [], false, none, none⟩).2.1.piloterrorcodes =
      [] ++ [ErrCode.postprocessFailure] ∧
    (runLoop
      { payloadCommand := Except.ok "c".data,
        newJobparams := fun _ => none, preCmd := fun _ => none,
        preExit := fun _ => 0, launchOk := fun _ => false,
        launchPid := fun _ => 4, startedUtility := fun _ => none,
        waitExit := fun _ => some 0, postCmd := fun _ => none,
        postExit := fun _ => 0,
        stop := ⟨fun _ => 15, fun p => p, fun _ => false⟩ }
      "c".data ⟨[], [], [], [], [], false, none, none⟩ 1 (0 + 1)).2.1.piloterrorcodes = [] :=
  ⟨c7_error_accumulation_amended.1 _ 0 "c".data ⟨[], [], [], [], [], false, none, none⟩ 1,
   c7_error_accumulation_amended.2.1 _ 1 ⟨[], [], [], [], [], false, none, none⟩
     "p".data rfl (by decide) (by decide) rfl,
   c7_error_accumulation_amended.2.2.1 "q".data 3
     ⟨[], [], [], [], [], false, none, none⟩ (by decide) (by decide),
   c7_error_accumulation_amended.2.2.2 _ "c".data
     ⟨[], [], [], [], [], false, none, none⟩ 1 0 rfl rfl rfl⟩

end Pilot
